import Mathlib

/-!
Verification of the `advanced-vector` repository (`src/advanced-vector/vector.h`).

The C++ code defines `RawMemory<T>` (a raw buffer owning `capacity_` uninitialized
slots) and `Vector<T>` (a sequence of `size_` live elements constructed in the
prefix of its `RawMemory` buffer).  The shallow embedding below represents the
observable state of a `Vector<T>` by the list of its live elements together with
the capacity of its buffer: `elems` is the content of slots `[0, size_)` in
order, and `cap` is `data_.Capacity()`.  The stored field `size_` is recovered
as `elems.length`, which is exactly the number of live elements the C++
invariant guarantees.  Each operation below is translated clause by clause from
the member function of the same name in `vector.h`.
-/

namespace AdvancedVector

/-- Observable state of a `Vector<T>`: the live elements (slots `[0, size_)` of
the buffer, in order) and the buffer capacity `data_.Capacity()`. -/
structure Vector (α : Type) where
  elems : List α
  cap : Nat
deriving DecidableEq, Repr

namespace Vector

variable {α : Type}

/-- `Size()` (vector.h line 168): returns `size_`, the number of live elements. -/
def Size (v : Vector α) : Nat :=
  v.elems.length

/-- `Capacity()` (vector.h line 172): returns `data_.Capacity()`. -/
def Capacity (v : Vector α) : Nat :=
  v.cap

/-- Default constructor `Vector()` (line 94): empty, zero capacity. -/
def empty : Vector α :=
  ⟨[], 0⟩

/-- Sized constructor `Vector(size_t size)` (lines 96-101): allocates `size`
slots and value-constructs `size` elements. -/
def ofSize (α : Type) [Inhabited α] (n : Nat) : Vector α :=
  ⟨List.replicate n default, n⟩

/-- Copy constructor `Vector(const Vector&)` (lines 103-108): allocates
`vector.size_` slots and copy-constructs the elements. -/
def copyConstruct (v : Vector α) : Vector α :=
  ⟨v.elems, v.Size⟩

/-- Move constructor `Vector(Vector&&)` (lines 110-115) together with
`RawMemory(RawMemory&&)` (lines 25-29): the destination takes the buffer
pointer, capacity and size; the source's buffer is nulled, its capacity and
size set to 0.  Returns `(destination, source after the move)`. -/
def moveConstruct (v : Vector α) : Vector α × Vector α :=
  (⟨v.elems, v.cap⟩, ⟨[], 0⟩)

/-- Copy assignment `operator=(const Vector&)` (lines 117-127) with
`AssignFromSmaller` (lines 386-400): when `rhs.size_ > data_.Capacity()` a full
temporary copy (capacity `rhs.size_`) is built and swapped in; otherwise the
elements are assigned/constructed in place and the capacity is kept. -/
def copyAssign (v rhs : Vector α) : Vector α :=
  if rhs.Size > v.Capacity then ⟨rhs.elems, rhs.Size⟩
  else ⟨rhs.elems, v.cap⟩

/-- Move assignment `operator=(Vector&&)` (lines 129-134): swaps buffer and
size with the source.  Returns `(new this, new rhs)`. -/
def moveAssign (v rhs : Vector α) : Vector α × Vector α :=
  (rhs, v)

/-- `Swap` (lines 163-166): swaps `data_` and `size_` of the two vectors. -/
def swap (a b : Vector α) : Vector α × Vector α :=
  (b, a)

/-- `Reserve` (lines 176-189): no-op when `capacity <= data_.Capacity()`;
otherwise allocates exactly `capacity` slots, relocates the live elements,
destroys the old ones and swaps buffers.  Size is unchanged. -/
def Reserve (v : Vector α) (capacity : Nat) : Vector α :=
  if capacity ≤ v.Capacity then v
  else ⟨v.elems, capacity⟩

/-- `Resize` (lines 191-218): shrink by destroying the tail, grow in place by
value-constructing into spare capacity, or grow through a new buffer of
capacity `max(new_size, Capacity() == 0 ? 1 : Capacity() * 2)`. -/
def Resize [Inhabited α] (v : Vector α) (new_size : Nat) : Vector α :=
  if new_size < v.Size then
    ⟨v.elems.take new_size, v.cap⟩
  else if new_size ≤ v.Capacity then
    ⟨v.elems ++ List.replicate (new_size - v.Size) default, v.cap⟩
  else
    let new_capacity := max new_size (if v.Capacity = 0 then 1 else v.Capacity * 2)
    ⟨v.elems ++ List.replicate (new_size - v.Size) default, new_capacity⟩

/-- `EmplaceBack` (lines 235-265), successful path: construct in place when
`size_ < Capacity()`; otherwise relocate into a buffer of capacity
`Capacity() == 0 ? 1 : Capacity() * 2`, construct the new element there, then
destroy the old elements and swap. -/
def EmplaceBack (v : Vector α) (x : α) : Vector α :=
  if v.Size < v.Capacity then
    ⟨v.elems ++ [x], v.cap⟩
  else
    let new_capacity := if v.Capacity = 0 then 1 else v.Capacity * 2
    ⟨v.elems ++ [x], new_capacity⟩

/-- `PushBack` (lines 220-226): delegates to `EmplaceBack`. -/
def PushBack (v : Vector α) (x : α) : Vector α :=
  v.EmplaceBack x

/-- `PopBack` (lines 228-233): returns immediately when `size_ == 0`;
otherwise destroys the last element and decrements `size_`. -/
def PopBack (v : Vector α) : Vector α :=
  if v.Size = 0 then v
  else ⟨v.elems.dropLast, v.cap⟩

/-- `Emplace` (lines 267-341), successful path.  A position outside
`[begin(), end()]` (as a `Nat` index: `pos > size_`) raises `std::out_of_range`.
With `size_ == Capacity()` a new buffer of capacity `size_ == 0 ? 1 : size_ * 2`
receives the prefix `[0, pos)`, the new element, then the suffix `[pos, size_)`.
Otherwise the element is constructed at the end or shifted into place; either
way slots `[0, pos)` keep their values, slot `pos` gets the new element and the
old `[pos, size_)` move one slot right.  Returns the state and the index of the
inserted element. -/
def Emplace (v : Vector α) (pos : Nat) (x : α) : Except Unit (Vector α × Nat) :=
  if pos > v.Size then .error ()
  else if v.Size = v.Capacity then
    let new_capacity := if v.Size = 0 then 1 else v.Size * 2
    .ok (⟨v.elems.take pos ++ x :: v.elems.drop pos, new_capacity⟩, pos)
  else if pos = v.Size then
    .ok (⟨v.elems ++ [x], v.cap⟩, pos)
  else
    .ok (⟨v.elems.take pos ++ x :: v.elems.drop pos, v.cap⟩, pos)

/-- `Erase` (lines 343-358): a position outside `[begin(), end())` (as a `Nat`
index: `pos >= size_`) raises `std::out_of_range`; otherwise every element
after `pos` is move-assigned one slot left, the last live slot is destroyed and
`size_` decremented.  Returns the state and the index `pos`. -/
def Erase (v : Vector α) (pos : Nat) : Except Unit (Vector α × Nat) :=
  if pos ≥ v.Size then .error ()
  else .ok (⟨v.elems.eraseIdx pos, v.cap⟩, pos)

/-- `Insert` (lines 360-366): delegates to `Emplace`. -/
def Insert (v : Vector α) (pos : Nat) (x : α) : Except Unit (Vector α × Nat) :=
  v.Emplace pos x

/-- Composite of `Erase(pos)` followed by `Insert(pos, x)`, returning the
resulting state. -/
def eraseThenInsert (v : Vector α) (pos : Nat) (x : α) : Except Unit (Vector α) :=
  match v.Erase pos with
  | .error e => .error e
  | .ok (v1, _) =>
    match v1.Insert pos x with
    | .error e => .error e
    | .ok (v2, _) => .ok v2

/-- Representation invariant of `Vector<T>` (spec §3): the live elements never
outnumber the buffer slots, `size_ <= data_.Capacity()`. -/
def Wf (v : Vector α) : Prop :=
  v.Size ≤ v.Capacity

instance (v : Vector α) : Decidable v.Wf := by
  unfold Wf; infer_instance

/-- Content of the buffer's `cap` slots: the live prefix `[0, size_)` holds the
elements, the slots `[size_, cap)` are uninitialized (`none`). -/
def bufferSlots (v : Vector α) : List (Option α) :=
  v.elems.map some ++ List.replicate (v.cap - v.Size) none

/-- Lifetime events on buffer slots during `EmplaceBack`'s reallocation branch. -/
inductive BufEvent where
  | constructNew (i : Nat)
  | destroyNew (i : Nat)
  | destroyOld (i : Nat)
deriving DecidableEq, Repr

/-- Slot lifetime events performed by the reallocation branch of `EmplaceBack`
(lines 245-259) when the element constructor at `newData + size_` throws, for a
vector of `size` live elements: `uninitialized_move_n`/`uninitialized_copy_n`
constructs `new[0], ..., new[size-1]` (lines 248-252), the placement
construction at `new[size]` throws before completing (line 255), and the catch
block runs `destroy_n(newData.GetAddress(), size_)` (line 257) and rethrows.
The old buffer's `destroy_n` (line 261) is never reached. -/
def emplaceBackThrowEvents (size : Nat) : List BufEvent :=
  (List.range size).map BufEvent.constructNew ++ (List.range size).map BufEvent.destroyNew

/-- Compile-time properties of the element type `T` consulted by the
relocation sites in `vector.h`. -/
structure TypeTraits where
  nothrow_move_constructible : Bool
  copy_constructible : Bool
deriving DecidableEq, Repr

/-- Outcome of the `if constexpr` relocation dispatch. -/
inductive RelocMethod where
  | moveElems
  | copyElems
deriving DecidableEq, Repr

/-- Relocation dispatch shared by every reallocation site — `Reserve`
(line 181), `Resize` (line 207), `EmplaceBack` (line 248) and `Emplace`
(lines 279 and 294) all test the identical condition
`std::is_nothrow_move_constructible_v<T> || !std::is_copy_constructible_v<T>`
and call `uninitialized_move_n` when it holds, `uninitialized_copy_n`
otherwise. -/
def relocMethod (tr : TypeTraits) : RelocMethod :=
  if tr.nothrow_move_constructible || !tr.copy_constructible then .moveElems
  else .copyElems

/-- Value view of one live slot of element type `T`: either a slot still
holding a known value, or a slot whose content was pilfered by a move
constructor and is now in the valid-but-unspecified moved-from state. -/
inductive SlotVal (α : Type) where
  | val (a : α)
  | movedFrom
deriving DecidableEq, Repr

/-- Contents of the old buffer's live slots right after the relocation step of
a reallocation site has run (lines 248-252): `uninitialized_move_n`
move-constructs from each old element, leaving it moved-from, while
`uninitialized_copy_n` reads each old element without modifying it. -/
def relocatedOldElems (tr : TypeTraits) (elems : List α) : List (SlotVal α) :=
  match relocMethod tr with
  | .moveElems => elems.map (fun _ => SlotVal.movedFrom)
  | .copyElems => elems.map SlotVal.val

/-- `EmplaceBack` (lines 235-265) with a fallible element constructor, as a
single construction attempt over the `SlotVal` view of the elements:
`ctor = some x` means the `T(args...)` placement construction succeeds
producing `x`; `ctor = none` means it throws.  The result carries, on the
error side, the observable vector state after the exception has propagated
out.  In the in-place branch (line 240) a throw happens before any member is
mutated and before any relocation, so the old values survive.  In the
reallocation branch the live elements are relocated into the new buffer
(lines 248-252) before the construction at line 255 throws; the catch block
(lines 256-259) then destroys the new buffer's elements and rethrows before
`data_.Swap(newData)` and `++size_` run, so size and capacity are unchanged —
but under move relocation the old buffer is left holding moved-from
elements. -/
def EmplaceBackCtor (tr : TypeTraits) (v : Vector α) (ctor : Option α) :
    Except (Vector (SlotVal α)) (Vector (SlotVal α)) :=
  if v.Size < v.Capacity then
    match ctor with
    | some x => .ok ⟨v.elems.map SlotVal.val ++ [SlotVal.val x], v.cap⟩
    | none => .error ⟨v.elems.map SlotVal.val, v.cap⟩
  else
    let new_capacity := if v.Capacity = 0 then 1 else v.Capacity * 2
    match ctor with
    | some x => .ok ⟨v.elems.map SlotVal.val ++ [SlotVal.val x], new_capacity⟩
    | none => .error ⟨relocatedOldElems tr v.elems, v.cap⟩

end Vector

open Vector

/-! ## Helper lemmas (shared) -/

theorem Size_eq {α : Type} (v : Vector α) : v.Size = v.elems.length :=
  rfl

theorem Capacity_eq {α : Type} (v : Vector α) : v.Capacity = v.cap :=
  rfl

theorem EmplaceBack_elems {α : Type} (v : Vector α) (x : α) :
    (v.EmplaceBack x).elems = v.elems ++ [x] := by
  unfold Vector.EmplaceBack
  split <;> rfl

theorem PushBack_elems {α : Type} (v : Vector α) (x : α) :
    (v.PushBack x).elems = v.elems ++ [x] :=
  EmplaceBack_elems v x

/-! ## Claims -/

/-- C1: after `PushBack(v)` returns normally, `Size()` is the prior size plus
one, the new last element equals `v`, and every element that was at index `i`
before the call is still at index `i` with an unchanged value. -/
theorem C1_pushBack_appends {α : Type} (v : Vector α) (x : α) :
    (v.PushBack x).Size = v.Size + 1 ∧
    (v.PushBack x).elems.getLast? = some x ∧
    ∀ i, i < v.Size → (v.PushBack x).elems[i]? = v.elems[i]? := by
  refine ⟨?_, ?_, ?_⟩
  · simp [Vector.Size, PushBack_elems]
  · simp [PushBack_elems]
  · intro i hi
    rw [PushBack_elems]
    exact List.getElem?_append_left hi

/-- Witness for C1 at the concrete sequence `[1, 2]` with capacity 2,
pushing 5. -/
theorem C1_pushBack_appends_witness :
    (Vector.PushBack (⟨[1, 2], 2⟩ : Vector Nat) 5).elems[1]? =
      (⟨[1, 2], 2⟩ : Vector Nat).elems[1]? :=
  (C1_pushBack_appends (⟨[1, 2], 2⟩ : Vector Nat) 5).2.2 1 (by decide)

/-- C4: `Reserve(n)` with `n <= capacity` is a no-op; with `n > capacity` it
makes the capacity exactly `n`, keeps the live element values in order, and
leaves the size unchanged. -/
theorem C4_reserve_spec {α : Type} (v : Vector α) (n : Nat) :
    (n ≤ v.Capacity → v.Reserve n = v) ∧
    (v.Capacity < n →
      (v.Reserve n).Capacity = n ∧
      (v.Reserve n).elems = v.elems ∧
      (v.Reserve n).Size = v.Size) := by
  constructor
  · intro h
    unfold Vector.Reserve
    simp [h]
  · intro h
    unfold Vector.Reserve
    rw [if_neg (by omega)]
    exact ⟨rfl, rfl, rfl⟩

/-- Witness for C4 at the concrete sequence `[1]` with capacity 1: `Reserve 1`
is a no-op and `Reserve 10` yields capacity 10 with content `[1]`. -/
theorem C4_reserve_spec_witness :
    Vector.Reserve (⟨[1], 1⟩ : Vector Nat) 1 = (⟨[1], 1⟩ : Vector Nat) ∧
    (Vector.Reserve (⟨[1], 1⟩ : Vector Nat) 10).Capacity = 10 := by
  constructor
  · exact (C4_reserve_spec (⟨[1], 1⟩ : Vector Nat) 1).1 (by decide)
  · exact ((C4_reserve_spec (⟨[1], 1⟩ : Vector Nat) 10).2 (by decide)).1

/-- C7: every reallocation site relocates live elements by move construction
if and only if `T`'s move constructor is non-throwing or `T` is not
copy-constructible, and by copy construction in all other cases.  The shared
dispatch condition is modelled by `relocMethod`. -/
theorem C7_reloc_dispatch (tr : TypeTraits) :
    (relocMethod tr = RelocMethod.moveElems ↔
      (tr.nothrow_move_constructible = true ∨ tr.copy_constructible = false)) ∧
    (relocMethod tr = RelocMethod.copyElems ↔
      (tr.nothrow_move_constructible = false ∧ tr.copy_constructible = true)) := by
  rcases tr with ⟨nm, cc⟩
  rcases nm <;> rcases cc <;> constructor <;> simp [relocMethod]

/-- C8: move construction transfers the whole content and capacity to the
destination and leaves the source with size 0 and capacity 0. -/
theorem C8_move_construct {α : Type} (v : Vector α) :
    (v.moveConstruct).1.elems = v.elems ∧
    (v.moveConstruct).1.Capacity = v.Capacity ∧
    (v.moveConstruct).2.Size = 0 ∧
    (v.moveConstruct).2.Capacity = 0 :=
  ⟨rfl, rfl, rfl, rfl⟩

/-- C10: `PopBack` on an empty sequence returns normally and leaves the state
(size, capacity and contents) unchanged. -/
theorem C10_popBack_empty_noop {α : Type} (v : Vector α) (h : v.Size = 0) :
    v.PopBack = v := by
  unfold Vector.PopBack
  simp [h]

/-- Witness for C10 at the empty sequence with capacity 4. -/
theorem C10_popBack_empty_noop_witness :
    Vector.Size (⟨[], 4⟩ : Vector Nat) = 0 ∧
    Vector.PopBack (⟨[], 4⟩ : Vector Nat) = (⟨[], 4⟩ : Vector Nat) :=
  ⟨rfl, C10_popBack_empty_noop (⟨[], 4⟩ : Vector Nat) rfl⟩

/-- C5: `Emplace` (and `Insert`) raise the out-of-range failure exactly when
the position is outside `[begin, end]` (as an index: `pos > size_`), and
`Erase` exactly when the position is outside `[begin, end)` (`pos >= size_`);
every valid position goes through without this failure. -/
theorem C5_position_validation {α : Type} (v : Vector α) (i : Nat) (x : α) :
    (v.Emplace i x = .error () ↔ v.Size < i) ∧
    (v.Insert i x = .error () ↔ v.Size < i) ∧
    (v.Erase i = .error () ↔ v.Size ≤ i) := by
  have hEm : v.Emplace i x = .error () ↔ v.Size < i := by
    unfold Vector.Emplace
    split_ifs with h1 h2 h3 <;> simp_all
  refine ⟨hEm, hEm, ?_⟩
  unfold Vector.Erase
  split_ifs with h1 <;> simp_all

/-- Key list identity behind C6: re-inserting the element removed by
`eraseIdx` at the position it was removed from restores the list. -/
theorem take_get_drop_eraseIdx {α : Type} :
    ∀ (l : List α) (i : Nat) (h : i < l.length),
      (l.eraseIdx i).take i ++ l.get ⟨i, h⟩ :: (l.eraseIdx i).drop i = l
  | _ :: _, 0, _ => rfl
  | a :: t, i + 1, h =>
    congrArg (List.cons a) (take_get_drop_eraseIdx t i (Nat.lt_of_succ_lt_succ h))

/-- C6: for every well-formed sequence and every position valid for `Erase`,
erasing and then inserting the erased value at the same position restores
exactly the original state (content, order, and capacity). -/
theorem C6_erase_insert_roundtrip {α : Type} (v : Vector α) (i : Nat)
    (h : i < v.Size) (hwf : v.Wf) :
    v.eraseThenInsert i (v.elems.get ⟨i, h⟩) = .ok ⟨v.elems, v.cap⟩ := by
  have hlt : i < v.elems.length := h
  have hwf' : v.elems.length ≤ v.cap := hwf
  have hE : v.Erase i = .ok (⟨v.elems.eraseIdx i, v.cap⟩, i) := by
    unfold Vector.Erase
    exact if_neg (by omega)
  have hlen : (v.elems.eraseIdx i).length = v.elems.length - 1 := by
    rw [List.length_eraseIdx, if_pos hlt]
  have hround := take_get_drop_eraseIdx v.elems i hlt
  have hIns : (⟨v.elems.eraseIdx i, v.cap⟩ : Vector α).Insert i (v.elems.get ⟨i, hlt⟩) =
      .ok (⟨v.elems, v.cap⟩, i) := by
    unfold Vector.Insert Vector.Emplace
    rw [if_neg (by simp only [Vector.Size, hlen]; omega),
      if_neg (by simp only [Vector.Size, Vector.Capacity, hlen]; omega)]
    by_cases hi : i = (⟨v.elems.eraseIdx i, v.cap⟩ : Vector α).Size
    · rw [if_pos hi]
      have hi' : i = (v.elems.eraseIdx i).length := hi
      rw [List.take_of_length_le (by omega), List.drop_of_length_le (by omega)] at hround
      dsimp only
      rw [hround]
    · rw [if_neg hi]
      dsimp only
      rw [hround]
  unfold Vector.eraseThenInsert
  rw [hE]
  dsimp only
  rw [hIns]

/-- Witness for C6 at the concrete sequence `[1, 2, 3]` with capacity 3,
erasing and re-inserting at index 1. -/
theorem C6_erase_insert_roundtrip_witness :
    Vector.eraseThenInsert (⟨[1, 2, 3], 3⟩ : Vector Nat) 1
        ((⟨[1, 2, 3], 3⟩ : Vector Nat).elems.get ⟨1, by decide⟩) =
      .ok (⟨[1, 2, 3], 3⟩ : Vector Nat) :=
  C6_erase_insert_roundtrip (⟨[1, 2, 3], 3⟩ : Vector Nat) 1 (by decide) (by decide)

/-- C3 counterexample: `Reserve` does not follow the claimed shared growth
formula.  At capacity 4, `Reserve(5)` needs more capacity (5 > 4) but the code
allocates exactly 5 slots, not `max(5, 4 * 2) = 8`. -/
theorem C3_growth_policy_cex :
    Vector.Capacity (⟨[1, 2, 3, 4], 4⟩ : Vector Nat) < 5 ∧
    (Vector.Reserve (⟨[1, 2, 3, 4], 4⟩ : Vector Nat) 5).Capacity ≠
      max 5 (if Vector.Capacity (⟨[1, 2, 3, 4], 4⟩ : Vector Nat) = 0 then 1
        else Vector.Capacity (⟨[1, 2, 3, 4], 4⟩ : Vector Nat) * 2) := by
  decide

/-- C3 amended: `PushBack`, `EmplaceBack` and `Resize` grow the capacity to
`max(requested_size, current_capacity == 0 ? 1 : current_capacity * 2)` when
they need more capacity, but `Reserve(n)` with `n > capacity` sets the
capacity to exactly `n`. -/
theorem C3_growth_policy_amended {α : Type} [Inhabited α] :
    (∀ (v : Vector α) (x : α), v.Size = v.Capacity →
      (v.PushBack x).Capacity =
        max (v.Size + 1) (if v.Capacity = 0 then 1 else v.Capacity * 2)) ∧
    (∀ (v : Vector α) (x : α), v.Size = v.Capacity →
      (v.EmplaceBack x).Capacity =
        max (v.Size + 1) (if v.Capacity = 0 then 1 else v.Capacity * 2)) ∧
    (∀ (v : Vector α) (n : Nat), v.Wf → v.Capacity < n →
      (v.Resize n).Capacity =
        max n (if v.Capacity = 0 then 1 else v.Capacity * 2)) ∧
    (∀ (v : Vector α) (n : Nat), v.Capacity < n → (v.Reserve n).Capacity = n) := by
  have hEB : ∀ (v : Vector α) (x : α), v.Size = v.Capacity →
      (v.EmplaceBack x).Capacity =
        max (v.Size + 1) (if v.Capacity = 0 then 1 else v.Capacity * 2) := by
    intro v x h
    unfold Vector.EmplaceBack
    rw [if_neg (by omega)]
    simp only [Vector.Capacity]
    split_ifs with hc <;> simp only [Vector.Capacity] at h hc <;> omega
  refine ⟨fun v x h => hEB v x h, hEB, ?_, ?_⟩
  · intro v n hwf hlt
    have hwf' : v.Size ≤ v.Capacity := hwf
    unfold Vector.Resize
    rw [if_neg (by omega), if_neg (by omega)]
    rfl
  · intro v n hlt
    unfold Vector.Reserve
    rw [if_neg (by omega)]
    rfl

/-- Witness for the amended C3: growth at size = capacity = 1 doubles to 2,
a growing `Resize(5)` from capacity 1 reaches `max(5, 2) = 5`, and
`Reserve(3)` from capacity 0 reaches exactly 3. -/
theorem C3_growth_policy_amended_witness :
    (Vector.EmplaceBack (⟨[7], 1⟩ : Vector Nat) 9).Capacity = 2 ∧
    (Vector.Resize (⟨[7], 1⟩ : Vector Nat) 5).Capacity = 5 ∧
    (Vector.Reserve (⟨[], 0⟩ : Vector Nat) 3).Capacity = 3 := by
  refine ⟨?_, ?_, ?_⟩
  · rw [(C3_growth_policy_amended (α := Nat)).2.1 ⟨[7], 1⟩ 9 (by decide)]
    decide
  · rw [(C3_growth_policy_amended (α := Nat)).2.2.1 ⟨[7], 1⟩ 5 (by decide) (by decide)]
    decide
  · exact (C3_growth_policy_amended (α := Nat)).2.2.2 ⟨[], 0⟩ 3 (by decide)

theorem constructNew_injective : Function.Injective BufEvent.constructNew :=
  fun _ _ h => by simpa using h

theorem destroyNew_injective : Function.Injective BufEvent.destroyNew :=
  fun _ _ h => by simpa using h

theorem count_range_self (i n : Nat) :
    (List.range n).count i = if i < n then 1 else 0 := by
  induction n with
  | zero => simp
  | succ n ih =>
    rw [List.range_succ, List.count_append, ih, List.count_cons, List.count_nil]
    simp only [beq_iff_eq]
    split_ifs <;> omega

theorem count_events_constructNew (i n : Nat) :
    (emplaceBackThrowEvents n).count (BufEvent.constructNew i) =
      if i < n then 1 else 0 := by
  unfold Vector.emplaceBackThrowEvents
  rw [List.count_append]
  have h1 : List.count (BufEvent.constructNew i)
      ((List.range n).map BufEvent.constructNew) = List.count i (List.range n) :=
    List.count_map_of_injective _ _ constructNew_injective i
  have h2 : List.count (BufEvent.constructNew i)
      ((List.range n).map BufEvent.destroyNew) = 0 :=
    List.count_eq_zero.mpr (by simp)
  rw [h1, h2, count_range_self]
  omega

theorem count_events_destroyNew (i n : Nat) :
    (emplaceBackThrowEvents n).count (BufEvent.destroyNew i) =
      if i < n then 1 else 0 := by
  unfold Vector.emplaceBackThrowEvents
  rw [List.count_append]
  have h1 : List.count (BufEvent.destroyNew i)
      ((List.range n).map BufEvent.constructNew) = 0 :=
    List.count_eq_zero.mpr (by simp)
  have h2 : List.count (BufEvent.destroyNew i)
      ((List.range n).map BufEvent.destroyNew) = List.count i (List.range n) :=
    List.count_map_of_injective _ _ destroyNew_injective i
  rw [h1, h2, count_range_self]
  omega

/-- C2 counterexample: for an element type with a non-throwing move
constructor that is also copy-constructible (traits `⟨true, true⟩`, e.g. a
string-like type whose value constructor can throw), `EmplaceBack` at
`size == capacity` relocates by move (lines 248-249) before the construction
at line 255 throws, so after the error propagates the old buffer's slot no
longer holds the original value `7` but a moved-from element: the original
claim's "element values are exactly as before the call" fails here. -/
theorem C2_emplaceBack_throw_cex :
    Vector.Size (⟨[7], 1⟩ : Vector Nat) = Vector.Capacity (⟨[7], 1⟩ : Vector Nat) ∧
    Vector.EmplaceBackCtor ⟨true, true⟩ (⟨[7], 1⟩ : Vector Nat) none =
      .error ⟨[SlotVal.movedFrom], 1⟩ ∧
    (⟨[SlotVal.movedFrom], 1⟩ : Vector (SlotVal Nat)) ≠
      ⟨[SlotVal.val 7], 1⟩ :=
  ⟨by decide, rfl, by decide⟩

/-- C2 amended: when the element constructor throws during an `EmplaceBack`
that triggers reallocation (`size_ == Capacity()` at entry), after the error
propagates the size and capacity are unchanged; the element values are exactly
as before the call whenever relocation was by copy, while under move
relocation the old buffer's slots are left moved-from; and on the slot-event
trace of that path every relocated element constructed in the new buffer is
destroyed exactly once (no leak, no double destruction) while no old-buffer
element is ever destroyed. -/
theorem C2_emplaceBack_throw_amended {α : Type} (tr : TypeTraits) (v : Vector α)
    (h : v.Size = v.Capacity) :
    v.EmplaceBackCtor tr none = .error ⟨relocatedOldElems tr v.elems, v.cap⟩ ∧
    (⟨relocatedOldElems tr v.elems, v.cap⟩ : Vector (SlotVal α)).Size = v.Size ∧
    (⟨relocatedOldElems tr v.elems, v.cap⟩ : Vector (SlotVal α)).Capacity =
      v.Capacity ∧
    (relocMethod tr = RelocMethod.copyElems →
      relocatedOldElems tr v.elems = v.elems.map SlotVal.val) ∧
    (relocMethod tr = RelocMethod.moveElems →
      relocatedOldElems tr v.elems = v.elems.map (fun _ => SlotVal.movedFrom)) ∧
    (∀ i, (emplaceBackThrowEvents v.Size).count (BufEvent.destroyNew i) =
      (emplaceBackThrowEvents v.Size).count (BufEvent.constructNew i)) ∧
    (∀ i, (emplaceBackThrowEvents v.Size).count (BufEvent.destroyNew i) ≤ 1) ∧
    (∀ i, (emplaceBackThrowEvents v.Size).count (BufEvent.destroyOld i) = 0) := by
  refine ⟨?_, ?_, rfl, ?_, ?_, ?_, ?_, ?_⟩
  · unfold Vector.EmplaceBackCtor
    rw [if_neg (by omega)]
  · show (relocatedOldElems tr v.elems).length = v.elems.length
    unfold Vector.relocatedOldElems
    cases relocMethod tr <;> simp
  · intro hm
    unfold Vector.relocatedOldElems
    rw [hm]
  · intro hm
    unfold Vector.relocatedOldElems
    rw [hm]
  · intro i
    rw [count_events_destroyNew, count_events_constructNew]
  · intro i
    rw [count_events_destroyNew]
    split_ifs <;> omega
  · intro i
    unfold Vector.emplaceBackThrowEvents
    rw [List.count_append, List.count_eq_zero.mpr (by simp),
      List.count_eq_zero.mpr (by simp)]

/-- Witness for the amended C2 at the concrete full sequence `[3, 4]` with
capacity 2, under copy-relocating traits `⟨false, true⟩` (a copyable type
without a non-throwing move constructor): the post-throw state keeps the
original values, size and capacity. -/
theorem C2_emplaceBack_throw_amended_witness :
    Vector.EmplaceBackCtor ⟨false, true⟩ (⟨[3, 4], 2⟩ : Vector Nat) none =
      .error ⟨relocatedOldElems ⟨false, true⟩ [3, 4], 2⟩ ∧
    relocatedOldElems ⟨false, true⟩ [3, 4] = [SlotVal.val 3, SlotVal.val 4] ∧
    (emplaceBackThrowEvents (Vector.Size (⟨[3, 4], 2⟩ : Vector Nat))).count
      (BufEvent.destroyNew 0) =
      (emplaceBackThrowEvents (Vector.Size (⟨[3, 4], 2⟩ : Vector Nat))).count
        (BufEvent.constructNew 0) :=
  ⟨(C2_emplaceBack_throw_amended ⟨false, true⟩ (⟨[3, 4], 2⟩ : Vector Nat)
      (by decide)).1,
    by
      rw [(C2_emplaceBack_throw_amended ⟨false, true⟩ (⟨[3, 4], 2⟩ : Vector Nat)
        (by decide)).2.2.2.1 (by decide)]
      decide,
    (C2_emplaceBack_throw_amended ⟨false, true⟩ (⟨[3, 4], 2⟩ : Vector Nat)
      (by decide)).2.2.2.2.2.1 0⟩

/-- C9: every public operation that returns normally preserves the
representation invariant `size <= capacity`, and in every well-formed state the
buffer slots `[0, size)` hold exactly the live elements while the slots
`[size, capacity)` hold no live element. -/
theorem C9_invariant_preservation {α : Type} [Inhabited α] :
    Wf (Vector.empty : Vector α) ∧
    (∀ n : Nat, Wf (Vector.ofSize α n)) ∧
    (∀ v : Vector α, Wf v.copyConstruct) ∧
    (∀ v : Vector α, Wf v → Wf (v.moveConstruct).1 ∧ Wf (v.moveConstruct).2) ∧
    (∀ v rhs : Vector α, Wf (v.copyAssign rhs)) ∧
    (∀ v rhs : Vector α, Wf v → Wf rhs →
      Wf (v.moveAssign rhs).1 ∧ Wf (v.moveAssign rhs).2) ∧
    (∀ a b : Vector α, Wf a → Wf b → Wf (a.swap b).1 ∧ Wf (a.swap b).2) ∧
    (∀ (v : Vector α) (n : Nat), Wf v → Wf (v.Reserve n)) ∧
    (∀ (v : Vector α) (n : Nat), Wf v → Wf (v.Resize n)) ∧
    (∀ (v : Vector α) (x : α), Wf v → Wf (v.PushBack x)) ∧
    (∀ (v : Vector α) (x : α), Wf v → Wf (v.EmplaceBack x)) ∧
    (∀ v : Vector α, Wf v → Wf v.PopBack) ∧
    (∀ (v : Vector α) (pos : Nat) (x : α) (w : Vector α) (r : Nat),
      Wf v → v.Emplace pos x = .ok (w, r) → Wf w) ∧
    (∀ (v : Vector α) (pos : Nat) (x : α) (w : Vector α) (r : Nat),
      Wf v → v.Insert pos x = .ok (w, r) → Wf w) ∧
    (∀ (v : Vector α) (pos : Nat) (w : Vector α) (r : Nat),
      Wf v → v.Erase pos = .ok (w, r) → Wf w) ∧
    (∀ v : Vector α, Wf v →
      (∀ i, i < v.Size → (bufferSlots v)[i]? = (v.elems[i]?).map some) ∧
      (∀ i, v.Size ≤ i → i < v.Capacity → (bufferSlots v)[i]? = some none)) := by
  have hEB : ∀ (v : Vector α) (x : α), Wf v → Wf (v.EmplaceBack x) := by
    intro v x hv
    have hv' : v.elems.length ≤ v.cap := hv
    unfold Vector.EmplaceBack
    by_cases h1 : v.Size < v.Capacity
    · rw [if_pos h1]
      simp only [Size_eq, Capacity_eq] at h1
      show (v.elems ++ [x]).length ≤ v.cap
      simp only [List.length_append, List.length_cons, List.length_nil]
      omega
    · rw [if_neg h1]
      simp only [Size_eq, Capacity_eq] at h1
      show (v.elems ++ [x]).length ≤ (if v.Capacity = 0 then 1 else v.Capacity * 2)
      simp only [Capacity_eq, List.length_append, List.length_cons, List.length_nil]
      by_cases hc : v.cap = 0
      · rw [if_pos hc]
        omega
      · rw [if_neg hc]
        omega
  have hEmp : ∀ (v : Vector α) (pos : Nat) (x : α) (w : Vector α) (r : Nat),
      Wf v → v.Emplace pos x = .ok (w, r) → Wf w := by
    intro v pos x w r hv heq
    have hv' : v.elems.length ≤ v.cap := hv
    unfold Vector.Emplace at heq
    by_cases h1 : pos > v.Size
    · rw [if_pos h1] at heq
      exact Except.noConfusion heq
    · rw [if_neg h1] at heq
      simp only [Size_eq] at h1
      by_cases h2 : v.Size = v.Capacity
      · rw [if_pos h2] at heq
        simp only [Size_eq, Capacity_eq] at h2
        dsimp only at heq
        injection heq with hp
        injection hp with hw hr
        subst hw
        show (List.take pos v.elems ++ x :: List.drop pos v.elems).length ≤
          (if v.Size = 0 then 1 else v.Size * 2)
        simp only [Size_eq, List.length_append, List.length_cons, List.length_take,
          List.length_drop]
        by_cases hz : v.elems.length = 0
        · rw [if_pos hz]
          omega
        · rw [if_neg hz]
          omega
      · rw [if_neg h2] at heq
        simp only [Size_eq, Capacity_eq] at h2
        by_cases h3 : pos = v.Size
        · rw [if_pos h3] at heq
          injection heq with hp
          injection hp with hw hr
          subst hw
          show (v.elems ++ [x]).length ≤ v.cap
          simp only [List.length_append, List.length_cons, List.length_nil]
          omega
        · rw [if_neg h3] at heq
          injection heq with hp
          injection hp with hw hr
          subst hw
          show (List.take pos v.elems ++ x :: List.drop pos v.elems).length ≤ v.cap
          simp only [List.length_append, List.length_cons, List.length_take,
            List.length_drop]
          omega
  refine ⟨?_, ?_, ?_, ?_, ?_, ?_, ?_, ?_, ?_, ?_, hEB, ?_, hEmp, hEmp, ?_, ?_⟩
  · exact Nat.le_refl 0
  · intro n
    show (List.replicate n (default : α)).length ≤ n
    simp
  · intro v
    exact Nat.le_refl _
  · intro v hv
    exact ⟨hv, Nat.le_refl 0⟩
  · intro v rhs
    unfold Vector.copyAssign
    by_cases h1 : rhs.Size > v.Capacity
    · rw [if_pos h1]
      exact Nat.le_refl _
    · rw [if_neg h1]
      simp only [Size_eq, Capacity_eq] at h1
      show rhs.elems.length ≤ v.cap
      omega
  · intro v rhs hv hrhs
    exact ⟨hrhs, hv⟩
  · intro a b ha hb
    exact ⟨hb, ha⟩
  · intro v n hv
    have hv' : v.elems.length ≤ v.cap := hv
    unfold Vector.Reserve
    by_cases h1 : n ≤ v.Capacity
    · rw [if_pos h1]
      exact hv
    · rw [if_neg h1]
      simp only [Capacity_eq] at h1
      show v.elems.length ≤ n
      omega
  · intro v n hv
    have hv' : v.elems.length ≤ v.cap := hv
    unfold Vector.Resize
    by_cases h1 : n < v.Size
    · rw [if_pos h1]
      simp only [Size_eq] at h1
      show (v.elems.take n).length ≤ v.cap
      simp only [List.length_take]
      omega
    · rw [if_neg h1]
      simp only [Size_eq] at h1
      by_cases h2 : n ≤ v.Capacity
      · rw [if_pos h2]
        simp only [Capacity_eq] at h2
        show (v.elems ++ List.replicate (n - v.Size) default).length ≤ v.cap
        simp only [List.length_append, List.length_replicate, Size_eq]
        omega
      · rw [if_neg h2]
        simp only [Capacity_eq] at h2
        show (v.elems ++ List.replicate (n - v.Size) default).length ≤
          max n (if v.Capacity = 0 then 1 else v.Capacity * 2)
        simp only [List.length_append, List.length_replicate, Size_eq, Capacity_eq]
        by_cases hc : v.cap = 0
        · rw [if_pos hc]
          omega
        · rw [if_neg hc]
          omega
  · exact fun v x hv => hEB v x hv
  · intro v hv
    have hv' : v.elems.length ≤ v.cap := hv
    unfold Vector.PopBack
    by_cases h1 : v.Size = 0
    · rw [if_pos h1]
      exact hv
    · rw [if_neg h1]
      show v.elems.dropLast.length ≤ v.cap
      simp only [List.length_dropLast]
      omega
  · intro v pos w r hv heq
    have hv' : v.elems.length ≤ v.cap := hv
    unfold Vector.Erase at heq
    by_cases h1 : pos ≥ v.Size
    · rw [if_pos h1] at heq
      exact Except.noConfusion heq
    · rw [if_neg h1] at heq
      simp only [Size_eq] at h1
      injection heq with hp
      injection hp with hw hr
      subst hw
      show (v.elems.eraseIdx pos).length ≤ v.cap
      rw [List.length_eraseIdx]
      by_cases hpl : pos < v.elems.length
      · rw [if_pos hpl]
        omega
      · rw [if_neg hpl]
        omega
  · intro v hv
    have hv' : v.elems.length ≤ v.cap := hv
    constructor
    · intro i hi
      have hi' : i < v.elems.length := hi
      show (v.elems.map some ++ List.replicate (v.cap - v.Size) none)[i]? =
        (v.elems[i]?).map some
      rw [List.getElem?_append_left (by simpa using hi')]
      simp [List.getElem?_map]
    · intro i hle hlt
      have hle' : v.elems.length ≤ i := hle
      have hlt' : i < v.cap := hlt
      show (v.elems.map some ++ List.replicate (v.cap - v.Size) none)[i]? = some none
      rw [List.getElem?_append_right (by simpa using hle')]
      simp only [List.length_map, List.length_replicate, Size_eq]
      rw [List.getElem?_replicate, if_pos (by omega)]

/-- Witness for C9: the invariant holds at the concrete state `[1]` with
capacity 1 and is preserved by `Reserve 5` there. -/
theorem C9_invariant_preservation_witness :
    Wf (⟨[1], 1⟩ : Vector Nat) ∧
    Wf (Vector.Reserve (⟨[1], 1⟩ : Vector Nat) 5) :=
  ⟨by decide,
    (C9_invariant_preservation (α := Nat)).2.2.2.2.2.2.2.1 ⟨[1], 1⟩ 5 (by decide)⟩

end AdvancedVector
